import Mathlib

/-!
A shallow embedding of the `chfloat` decimal/float parser
(`include/chfloat/chfloat.h`, `include/chfloat/detail/float_parse.h`).

Inputs are modelled as lists of bytes (`List Nat`); the C++ cursor pair
`(p, last)` becomes the remaining suffix of the list, and the returned
`ptr` is represented by the unconsumed suffix (`rem`): the number of
consumed bytes is `input.length - rem.length`.

Machine integers are modelled as `Nat`/`Int`.  Every arithmetic step that
can wrap in C++ is annotated; steps proved not to wrap (by the bounds the
code itself maintains, e.g. `mant < 10^19 < 2^64`) are modelled with plain
`Nat` arithmetic.  IEEE-754 double/float arithmetic used in the fast paths
is modelled by its IEEE semantics: operations are correctly rounded
(round-to-nearest, ties-to-even) rational arithmetic on bit patterns.
-/

set_option maxRecDepth 4000

namespace Chfloat

abbrev Byte := Nat

/-- Embeds `is_digit` / `digit_u8` from float_parse.h: byte in `['0','9']`. -/
def isDigit (b : Byte) : Bool := 48 ≤ b && b ≤ 57

def digitVal (b : Byte) : Nat := b - 48

/-- ASCII lower-casing of one byte, as done inside `ascii_ieq3`/`ascii_ieq8`. -/
def asciiLower (b : Byte) : Byte := if 65 ≤ b && b ≤ 90 then b + 32 else b

/-- Convenience: the byte list of an ASCII string literal (for concrete runs). -/
def bytes (s : String) : List Byte := s.toList.map Char.toNat

/-- State carried by the bounded decimal scanner
(`parse_decimal_19_impl` / `parse_decimal_10_impl` local variables). -/
structure ScanSt where
  mant : Nat
  exp10 : Int
  anyDig : Bool
  sig : Nat
  dropped : Bool
  droppedFirst : Nat
  droppedTail : Bool
deriving Repr, DecidableEq

def ScanSt.init : ScanSt := ⟨0, 0, false, 0, false, 0, false⟩

/-- Embeds `scan_digits_fast`: scan a run of digits, returning how many, whether any
is non-zero, and the rest of the input.  The 8-bytes-at-a-time word trick in
the source is a pure optimisation (see the source comment and spec §4.2
"Digit bulk-scan"); the byte-at-a-time tail loop of the same function gives
the semantics modelled here. -/
def scan_digits_fast : List Byte → Nat × Bool × List Byte
  | [] => (0, false, [])
  | b :: rest =>
    if isDigit b then
      let r := scan_digits_fast rest
      (r.1 + 1, r.2.1 || decide (b ≠ 48), r.2.2)
    else (0, false, b :: rest)

/-- The integer-part digit loop of `parse_decimal_19_impl` (cap 19) and
`parse_decimal_10_impl` (cap 10): accumulate significant digits while
`sig < cap`; on the first digit past the cap, record it, bulk-scan the
remaining integer digits, and stop. -/
def intLoop (cap : Nat) : ScanSt → List Byte → ScanSt × List Byte
  | st, [] => (st, [])
  | st, b :: rest =>
    if isDigit b then
      if st.sig < cap then
        intLoop cap { st with mant := st.mant * 10 + digitVal b,
                              sig := st.sig + 1, anyDig := true } rest
      else
        let s := scan_digits_fast rest
        ({ st with anyDig := true, dropped := true, droppedFirst := digitVal b,
                   droppedTail := st.droppedTail || s.2.1,
                   exp10 := st.exp10 + 1 + s.1 }, s.2.2)
    else (st, b :: rest)

/-- The fractional-part digit loop (after the `'.'` has been consumed). -/
def fracLoop (cap : Nat) : ScanSt → List Byte → ScanSt × List Byte
  | st, [] => (st, [])
  | st, b :: rest =>
    if isDigit b then
      if st.sig < cap then
        fracLoop cap { st with mant := st.mant * 10 + digitVal b,
                               sig := st.sig + 1, exp10 := st.exp10 - 1,
                               anyDig := true } rest
      else
        let st1 := if !st.dropped then
            { st with dropped := true, droppedFirst := digitVal b }
          else
            { st with droppedTail := st.droppedTail || decide (digitVal b ≠ 0) }
        let s := scan_digits_fast rest
        ({ st1 with anyDig := true,
                    exp10 := st1.exp10 - 1 - s.1,
                    droppedTail := st1.droppedTail || s.2.1 }, s.2.2)
    else (st, b :: rest)

/-- Integer digits, then an optional `'.'` followed by fractional digits:
the significand region of the scanner. -/
def sigScan (cap : Nat) (st0 : ScanSt) (cs : List Byte) : ScanSt × List Byte :=
  let r1 := intLoop cap st0 cs
  match r1.2 with
  | 46 :: rest => fracLoop cap r1.1 rest
  | _ => r1

/-- The 3-or-more-digit exponent tail loop, with the `e < 10000` saturation
check of the source. -/
def expTailLoop : Int → List Byte → Int × List Byte
  | e, [] => (e, [])
  | e, b :: rest =>
    if isDigit b then
      expTailLoop (if e < 10000 then e * 10 + digitVal b else e) rest
    else (e, b :: rest)

/-- The optional exponent sign after the `e`/`E`
(`if (p < last && (*p == '-' || *p == '+'))`). -/
def expSignSplit (rest : List Byte) : Bool × List Byte :=
  match rest with
  | 45 :: r => (true, r)
  | 43 :: r => (false, r)
  | _ => (false, rest)

/-- The exponent section.  If the byte under the cursor is `e`/`E`, consume
it and an optional sign; if no digit follows, rewind to the `e` (the
returned rest is the input unchanged).  Otherwise accumulate the exponent
(1-digit and 2-digit fast cases, then the saturating tail loop) and add it,
signed, to `exp10`. -/
def expScan (st : ScanSt) (cs : List Byte) : ScanSt × List Byte :=
  match cs with
  | [] => (st, [])
  | b :: rest =>
    if b = 101 || b = 69 then
      let sr := expSignSplit rest
      match sr.2 with
      | [] => (st, b :: rest)
      | b0 :: r0 =>
        if isDigit b0 then
          let er : Int × List Byte :=
            match r0 with
            | [] => ((digitVal b0 : Int), [])
            | b1 :: r1 =>
              if isDigit b1 then
                expTailLoop ((digitVal b0 : Int) * 10 + digitVal b1) r1
              else ((digitVal b0 : Int), b1 :: r1)
          let e := if sr.1 then -er.1 else er.1
          ({ st with exp10 := st.exp10 + e }, er.2)
        else (st, b :: rest)
    else (st, cs)

/-- Final rounding when digits were dropped past the cap: round up iff the
first dropped digit exceeds 5, or equals 5 and the tail is sticky or `mant`
is odd; a carry out of `10^cap - 1` renormalises to `10^(cap-1)` with
`exp10` incremented.  (`cap` is 19 or 10; the source writes the constants
`10^19`/`10^18` resp. `10^10`/`10^9` literally.) -/
def roundSt (cap : Nat) (st : ScanSt) : ScanSt :=
  if st.dropped then
    if st.droppedFirst > 5 ||
       (st.droppedFirst == 5 && (st.droppedTail || st.mant % 2 == 1)) then
      if st.mant + 1 = 10 ^ cap then
        { st with mant := 10 ^ (cap - 1), exp10 := st.exp10 + 1 }
      else { st with mant := st.mant + 1 }
    else st
  else st

/-- Embeds `dec64` of float_parse.h.  `rem` is the unconsumed suffix (the source's
`ptr`); `ec` uses the source's ordinals 0 = ok, 1 = invalid_argument,
2 = result_out_of_range. -/
structure Dec64 where
  mant : Nat
  exp10 : Int
  neg : Bool
  exact : Bool
  rem : List Byte
  ec : Nat
deriving Repr, DecidableEq

/-- Common body of `parse_decimal_19_impl` and `parse_decimal_10_impl`,
parametrised by the significant-digit cap (19 resp. 10). -/
def parse_decimal_cap_impl (cap : Nat) (p : List Byte) (neg : Bool) : Dec64 :=
  if p = [] then ⟨0, 0, false, false, p, 1⟩
  else
    let s1 := sigScan cap ScanSt.init p
    if !s1.1.anyDig then ⟨0, 0, false, false, p, 1⟩
    else
      let s2 := expScan s1.1 s1.2
      let st := roundSt cap s2.1
      ⟨st.mant, st.exp10, neg, !st.dropped, s2.2, 0⟩

def parse_decimal_19_impl (p : List Byte) (neg : Bool) : Dec64 :=
  parse_decimal_cap_impl 19 p neg

def parse_decimal_10_impl (p : List Byte) (neg : Bool) : Dec64 :=
  parse_decimal_cap_impl 10 p neg

/-! ### IEEE-754 binary64 / binary32 value model

The fast paths of `parse_fp_double` / `parse_fp_float` use hardware IEEE
arithmetic (`double` casts, `+`, `*`, `/`, narrowing).  IEEE-754 defines
each of these operations as the correct rounding (round-to-nearest,
ties-to-even — the mode the source relies on) of the exact rational
result, so they are modelled here as exact rational arithmetic followed by
`rne64` / `rne32` on bit patterns.  Rationals are represented as
unnormalised `num/den` pairs (`Frac`, `den > 0` at every use site), and
logarithms by fuel loops, so that the kernel can evaluate everything
(library `Rat` arithmetic and `Nat.log2` use well-founded recursion,
which `decide` cannot reduce). -/

/-- An unnormalised rational `num / den`; every operation below keeps
`den > 0`. -/
structure Frac where
  num : ℤ
  den : ℕ
deriving Repr, DecidableEq

def Frac.ofNat (n : Nat) : Frac := ⟨n, 1⟩

def Frac.add (a b : Frac) : Frac := ⟨a.num * b.den + b.num * a.den, a.den * b.den⟩

def Frac.mul (a b : Frac) : Frac := ⟨a.num * b.num, a.den * b.den⟩

/-- Division (all divisors in the modelled code are nonzero). -/
def Frac.div (a b : Frac) : Frac :=
  if b.num < 0 then ⟨-(a.num * b.den), a.den * b.num.natAbs⟩
  else ⟨a.num * b.den, a.den * b.num.natAbs⟩

def Frac.neg (a : Frac) : Frac := ⟨-a.num, a.den⟩

/-- Multiply by `2^k` (`k` of either sign), keeping the pair unnormalised. -/
def Frac.mul2pow (a : Frac) (k : ℤ) : Frac :=
  if 0 ≤ k then ⟨a.num * 2 ^ k.toNat, a.den⟩ else ⟨a.num, a.den * 2 ^ (-k).toNat⟩

/-- Number of binary digits of `n` (0 for `n = 0`), via a fuel loop.
Fuel 5000 covers every value arising in this development. -/
def bitLenLoop : Nat → Nat → Nat → Nat
  | 0, _, acc => acc
  | fuel + 1, n, acc => if n = 0 then acc else bitLenLoop fuel (n / 2) (acc + 1)

def bitLen (n : Nat) : Nat := bitLenLoop 5000 n 0

/-- Largest `k` with `b * 2^k ≤ a` (for `0 < b ≤ a`), by doubling `b`. -/
def log2DownLoop : Nat → Nat → Nat → Nat → Nat
  | 0, _, _, acc => acc
  | fuel + 1, a, b, acc =>
    if a < 2 * b then acc else log2DownLoop fuel a (2 * b) (acc + 1)

/-- Smallest `k` with `d ≤ a * 2^(k-1)` … iterated doubling of the
numerator, starting from `a = 2n`, `acc = 1` (used for values `< 1`). -/
def log2UpLoop : Nat → Nat → Nat → Nat → Nat
  | 0, _, _, acc => acc
  | fuel + 1, a, d, acc =>
    if d ≤ a then acc else log2UpLoop fuel (2 * a) d (acc + 1)

/-- Computes `⌊log₂ x⌋` of a positive fraction: the unique `e` with
`2^e ≤ x < 2^(e+1)`. -/
def floorLog2 (x : Frac) : ℤ :=
  let n := x.num.toNat
  let d := x.den
  if d ≤ n then (log2DownLoop 5000 n d 0 : ℤ)
  else -(log2UpLoop 5000 (2 * n) d 1 : ℤ)

/-- Round `a / b` (with `b > 0`) to the nearest integer, ties to even. -/
def rnHalfEven (a b : Nat) : Nat :=
  let q := a / b
  let r := a % b
  if 2 * r > b || (2 * r == b && q % 2 == 1) then q + 1 else q

/-- Bits (sign bit excluded) of the IEEE-754 binary64 value nearest to
the fraction `x ≥ 0` (round-to-nearest, ties-to-even), with subnormals,
and `+∞` (`0x7ff0000000000000`) on overflow. -/
def rne64Mag (x : Frac) : Nat :=
  if x.num ≤ 0 then 0
  else
    let e := floorLog2 x
    if e < -1022 then
      let y := x.mul2pow 1074
      rnHalfEven y.num.toNat y.den
    else
      let y := x.mul2pow (52 - e)
      let m := rnHalfEven y.num.toNat y.den
      if m = 2 ^ 53 then
        if 1023 < e + 1 then 0x7ff * 2 ^ 52 else (e + 1 + 1023).toNat * 2 ^ 52
      else if 1023 < e then 0x7ff * 2 ^ 52
      else (e + 1023).toNat * 2 ^ 52 + (m - 2 ^ 52)

/-- Bits of the IEEE-754 binary64 value nearest to a fraction. -/
def rne64 (x : Frac) : Nat :=
  if x.num < 0 then 2 ^ 63 + rne64Mag x.neg else rne64Mag x

/-- Bits (sign bit excluded) of the IEEE-754 binary32 value nearest to
`x ≥ 0`, with subnormals and `+∞` (`0x7f800000`) on overflow. -/
def rne32Mag (x : Frac) : Nat :=
  if x.num ≤ 0 then 0
  else
    let e := floorLog2 x
    if e < -126 then
      let y := x.mul2pow 149
      rnHalfEven y.num.toNat y.den
    else
      let y := x.mul2pow (23 - e)
      let m := rnHalfEven y.num.toNat y.den
      if m = 2 ^ 24 then
        if 127 < e + 1 then 0xff * 2 ^ 23 else (e + 1 + 127).toNat * 2 ^ 23
      else if 127 < e then 0xff * 2 ^ 23
      else (e + 127).toNat * 2 ^ 23 + (m - 2 ^ 23)

/-- Bits of the IEEE-754 binary32 value nearest to a fraction. -/
def rne32 (x : Frac) : Nat :=
  if x.num < 0 then 2 ^ 31 + rne32Mag x.neg else rne32Mag x

/-- The exact value of a finite binary64 bit pattern, as a fraction. -/
def f64_toFrac (b : Nat) : Frac :=
  let e : Nat := b / 2 ^ 52 % 2 ^ 11
  let m : Nat := b % 2 ^ 52
  let mag : Frac :=
    if e = 0 then ⟨m, 2 ^ 1074⟩
    else (Frac.mk (2 ^ 52 + m) 1).mul2pow ((e : ℤ) - 1075)
  if b / 2 ^ 63 % 2 = 1 then mag.neg else mag

/-- IEEE binary64 addition (correctly rounded, RNE). -/
def f64_add (a b : Nat) : Nat := rne64 ((f64_toFrac a).add (f64_toFrac b))

/-- IEEE binary64 multiplication (correctly rounded, RNE). -/
def f64_mul (a b : Nat) : Nat := rne64 ((f64_toFrac a).mul (f64_toFrac b))

/-- IEEE binary64 division (correctly rounded, RNE). -/
def f64_div (a b : Nat) : Nat := rne64 ((f64_toFrac a).div (f64_toFrac b))

/-- Models `static_cast<double>` of an unsigned integer (correctly rounded). -/
def f64_ofNat (n : Nat) : Nat := rne64 (Frac.ofNat n)

/-- IEEE negation of a binary64 pattern: flip the sign bit. -/
def f64_neg (b : Nat) : Nat := if b < 2 ^ 63 then b + 2 ^ 63 else b - 2 ^ 63

/-- Models `static_cast<float>` of an unsigned integer (correctly rounded). -/
def f32_ofNat (n : Nat) : Nat := rne32 (Frac.ofNat n)

/-- Narrowing `static_cast<float>` of a binary64 value (correctly rounded). -/
def f32_ofF64 (b : Nat) : Nat := rne32 (f64_toFrac b)

/-- IEEE negation of a binary32 pattern: flip the sign bit. -/
def f32_neg (b : Nat) : Nat := if b < 2 ^ 31 then b + 2 ^ 31 else b - 2 ^ 31

/-- The `frac10` table: the C++ double literals `0.0 … 0.9`, i.e. the
binary64 values nearest to `r/10`. -/
def frac10 (r : Nat) : Nat := rne64 ⟨r, 10⟩

/-- The `frac100` table: the C++ double literals `0.00 … 0.99`. -/
def frac100 (r : Nat) : Nat := rne64 ⟨r, 100⟩

/-- Embeds `pow10d_exact_upto15`: exact powers of ten `10^0 … 10^15` as binary64
(all exactly representable, so `rne64` is exact here). -/
def pow10d_exact_upto15 (e : Nat) : Nat := rne64 ⟨10 ^ e, 1⟩

/-- Embeds `pow10d_i32`: the 77-entry table of double literals `1e-38 … 1e38`
(each the binary64 value nearest to the decimal power). -/
def pow10d_i32 (e : ℤ) : Nat :=
  rne64 (if 0 ≤ e then ⟨10 ^ e.toNat, 1⟩ else ⟨1, 10 ^ (-e).toNat⟩)

/-! ### The general binary builder (Eisel–Lemire style) -/

/-- Embeds `lz64`: leading zeros of a 64-bit value (`w < 2^64`). -/
def lz64 (x : Nat) : Nat := if x = 0 then 64 else 63 - (bitLen x - 1)

/-- Embeds `mul_64x64_to_128`: full 128-bit product of two 64-bit values, as
`(hi, lo)` limbs. -/
def mul_64x64_to_128 (a b : Nat) : Nat × Nat := (a * b / 2 ^ 64, a * b % 2 ^ 64)

/-- Embeds `approx_log2_pow5`: fixed-point approximation of `log2(5^q) + q`
(arithmetic right shift by 16 = floor division). -/
def approx_log2_pow5 (q : ℤ) : ℤ := Int.ediv ((152170 + 65536) * q) (2 ^ 16) + 63

/-- Modelled from the spec: the power-of-five table header `pow5_table.h`
(symbols `pow5_128`, `pow5_table`, `pow5_smallest_q`) is not under `src/`.
Spec §3: a `Pow5Entry` is the "128-bit approximation of `5^q`,
high-bit-aligned", indexed by `q - Qmin` with the window `[-342, 308]`
(Qmin = -342).  For `q ≥ 0` the high-bit-aligned top 128 bits of the
integer `5^q` (truncated); for `q < 0` the high-bit-aligned top 128 bits
of the binary expansion of `5^q` rounded up (`5^q` is not a dyadic
rational, so the expansion is infinite and rounding up matches the
approximation-from-above the algorithm requires). -/
def pow5_table (q : ℤ) : Nat × Nat :=
  if 0 ≤ q then
    let v := 5 ^ q.toNat
    let bl := bitLen v
    let x := if 128 ≤ bl then v / 2 ^ (bl - 128) else v * 2 ^ (128 - bl)
    (x / 2 ^ 64, x % 2 ^ 64)
  else
    let d := 5 ^ (-q).toNat
    let bl := bitLen d
    let x := (2 ^ (127 + bl) + d - 1) / d
    (x / 2 ^ 64, x % 2 ^ 64)

structure Bin64 where
  mant : Nat
  exp : ℤ
deriving Repr, DecidableEq

structure Bin32 where
  mant : Nat
  exp : ℤ
deriving Repr, DecidableEq

/-- Embeds `build_binary64_q0`: exact 64-bit integer → binary64, RNE
(precondition `w ≠ 0`). -/
def build_binary64_q0 (w : Nat) : Bin64 :=
  let e2 : ℤ := (63 - lz64 w : ℤ)
  if e2 ≤ 52 then ⟨w * 2 ^ (52 - e2).toNat % 2 ^ 52, e2 + 1023⟩
  else
    let shift := (e2 - 52).toNat
    let m0 := w / 2 ^ shift
    let rem := w % 2 ^ shift
    let halfway := 2 ^ (shift - 1)
    let me : Nat × ℤ :=
      if rem > halfway || (rem == halfway && m0 % 2 == 1) then
        (if m0 + 1 = 2 ^ 53 then (2 ^ 52, e2 + 1) else (m0 + 1, e2))
      else (m0, e2)
    ⟨me.1 % 2 ^ 52, me.2 + 1023⟩

/-- Embeds `build_binary32_q0`: exact 64-bit integer → binary32, RNE
(precondition `w ≠ 0`). -/
def build_binary32_q0 (w : Nat) : Bin32 :=
  let e2 : ℤ := (63 - lz64 w : ℤ)
  if e2 ≤ 23 then ⟨w * 2 ^ (23 - e2).toNat % 2 ^ 23, e2 + 127⟩
  else
    let shift := (e2 - 23).toNat
    let m0 := w / 2 ^ shift
    let rem := w % 2 ^ shift
    let halfway := 2 ^ (shift - 1)
    let me : Nat × ℤ :=
      if rem > halfway || (rem == halfway && m0 % 2 == 1) then
        (if m0 + 1 = 2 ^ 24 then (2 ^ 23, e2 + 1) else (m0 + 1, e2))
      else (m0, e2)
    ⟨me.1 % 2 ^ 23, me.2 + 127⟩

/-- Embeds `build_binary64` (preconditions `w ≠ 0`, `q10 ∈ [-342, 308]`).
The `& mask` test on the low 9 bits of `p.hi` is written as `% 2^9`;
`m &= ~1` as `m - m % 2`; `m &= ~(1 << 52)` as `% 2^52` (the preceding
check guarantees `m < 2^53`, and on the `m = 2^52` reset the cleared value
is 0 either way). -/
def build_binary64 (q10 : ℤ) (w : Nat) : Bin64 :=
  if q10 = 0 then build_binary64_q0 w
  else
    let z := lz64 w
    let wnorm := w * 2 ^ z
    let c := pow5_table q10
    let p0 := mul_64x64_to_128 wnorm c.1
    let p : Nat × Nat :=
      if p0.1 % 2 ^ 9 = 2 ^ 9 - 1 then
        let p2 := mul_64x64_to_128 wnorm c.2
        let newLo := (p0.2 + p2.1) % 2 ^ 64
        (p0.1 + (if newLo < p0.2 then 1 else 0), newLo)
      else p0
    let upper : Nat := p.1 / 2 ^ 63
    let shift : Nat := upper + 64 - 52 - 3
    let m0 := p.1 / 2 ^ shift
    let e2 : ℤ := approx_log2_pow5 q10 + (upper : ℤ) - (z : ℤ) + 1023
    if e2 ≤ 0 then
      let rshift := -e2 + 1
      if 64 ≤ rshift then ⟨0, 0⟩
      else
        let m1 := m0 / 2 ^ rshift.toNat
        let m2 := (m1 + m1 % 2) / 2
        ⟨m2 % 2 ^ 52, if m2 < 2 ^ 52 then 0 else 1⟩
    else
      let m1 :=
        if m0 % 4 = 1 then
          if (-4 ≤ q10 && q10 ≤ 23) && p.2 ≤ 1 then
            if m0 * 2 ^ shift = p.1 then m0 - m0 % 2 else m0
          else m0
        else m0
      let m2 := (m1 + m1 % 2) / 2
      let me : Nat × ℤ := if 2 * 2 ^ 52 ≤ m2 then (2 ^ 52, e2 + 1) else (m2, e2)
      if 0x7ff ≤ me.2 then ⟨0, 0x7ff⟩ else ⟨me.1 % 2 ^ 52, me.2⟩

/-- Embeds `build_binary32` (preconditions `w ≠ 0`, `q10 ∈ [-64, 38]`).  The mask
on `p.hi` here is the low 38 bits (`0xffff… >> 26`). -/
def build_binary32 (q10 : ℤ) (w : Nat) : Bin32 :=
  if q10 = 0 then build_binary32_q0 w
  else
    let z := lz64 w
    let wnorm := w * 2 ^ z
    let c := pow5_table q10
    let p0 := mul_64x64_to_128 wnorm c.1
    let p : Nat × Nat :=
      if p0.1 % 2 ^ 38 = 2 ^ 38 - 1 then
        let p2 := mul_64x64_to_128 wnorm c.2
        let newLo := (p0.2 + p2.1) % 2 ^ 64
        (p0.1 + (if newLo < p0.2 then 1 else 0), newLo)
      else p0
    let upper : Nat := p.1 / 2 ^ 63
    let shift : Nat := upper + 64 - 23 - 3
    let m0 := p.1 / 2 ^ shift
    let e2 : ℤ := approx_log2_pow5 q10 + (upper : ℤ) - (z : ℤ) + 127
    if e2 ≤ 0 then
      let rshift := -e2 + 1
      if 64 ≤ rshift then ⟨0, 0⟩
      else
        let m1 := m0 / 2 ^ rshift.toNat
        let m2 := (m1 + m1 % 2) / 2
        ⟨m2 % 2 ^ 23, if m2 < 2 ^ 23 then 0 else 1⟩
    else
      let m1 :=
        if m0 % 4 = 1 then
          if (-17 ≤ q10 && q10 ≤ 10) && p.2 ≤ 1 then
            if m0 * 2 ^ shift = p.1 then m0 - m0 % 2 else m0
          else m0
        else m0
      let m2 := (m1 + m1 % 2) / 2
      let me : Nat × ℤ := if 2 * 2 ^ 23 ≤ m2 then (2 ^ 23, e2 + 1) else (m2, e2)
      if 0xff ≤ me.2 then ⟨0, 0xff⟩ else ⟨me.1 % 2 ^ 23, me.2⟩

/-! ### `parse_fp_double` / `parse_fp_float` -/

/-- Result of one floating-point parse: `written` is the bit pattern stored
through the output reference (`none` when the reference is not written),
`rem` the unconsumed suffix (the returned `ptr`), `ec` the error ordinal. -/
structure FpResult where
  written : Option Nat
  rem : List Byte
  ec : Nat
deriving Repr, DecidableEq

/-- Embeds `ascii_ieq3 p lit` for a 3-byte lowercase literal, including the
`(last - p) >= 3` length guard at both call sites. -/
def ieq3 (p : List Byte) (a b c : Byte) : Bool :=
  match p with
  | x :: y :: z :: _ => asciiLower x == a && asciiLower y == b && asciiLower z == c
  | _ => false

/-- Embeds `ascii_ieq8 p lit` for an 8-byte lowercase literal, including the
`(last - p) >= 8` length guard. -/
def ieq8 (p : List Byte) (l : List Byte) : Bool :=
  match p with
  | x0 :: x1 :: x2 :: x3 :: x4 :: x5 :: x6 :: x7 :: _ =>
    ([x0, x1, x2, x3, x4, x5, x6, x7].map asciiLower) == l
  | _ => false

/-- Applies `bits |= 1 << 63` under `if (neg)`. -/
def withSign64 (neg : Bool) (bits : Nat) : Nat := if neg then bits ||| 2 ^ 63 else bits

/-- Applies `bits |= 1u << 31` under `if (neg)`. -/
def withSign32 (neg : Bool) (bits : Nat) : Nat := if neg then bits ||| 2 ^ 31 else bits

/-- The optional leading sign: `-` (byte 45) sets `neg`, `+` (43) is
skipped, anything else leaves the cursor in place. -/
def signSplit (first : List Byte) : Bool × List Byte :=
  match first with
  | 45 :: r => (true, r)
  | 43 :: r => (false, r)
  | _ => (false, first)

/-- The exact fast-path cluster of `parse_fp_double` (source order:
`frac10`, `frac100`, then the `[-15, 15]` exact power-of-ten path);
`none` means fall through to the general path.  The `static_cast<u32>`
range test is modelled as `emod 2^32`. -/
def fp_double_fast (d : Dec64) : Option Nat :=
  if d.exact && d.mant ≤ 9007199254740991 then
    if d.mant ≤ 99999999 && d.exp10 == -1 then
      let q := d.mant / 10
      some (f64_add (f64_ofNat q) (frac10 (d.mant - q * 10)))
    else if d.mant ≤ 99999999 && d.exp10 == -2 then
      let q := d.mant / 100
      some (f64_add (f64_ofNat q) (frac100 (d.mant - q * 100)))
    else if (d.exp10 + 15) % (2 ^ 32) ≤ 30 then
      let v := f64_ofNat d.mant
      some (if 0 < d.exp10 then f64_mul v (pow10d_exact_upto15 d.exp10.toNat)
            else if d.exp10 < 0 then f64_div v (pow10d_exact_upto15 (-d.exp10).toNat)
            else v)
    else none
  else none

/-- The tail of `parse_fp_double` after the fast paths: zero mantissa,
the exponent range guard (`[-342, 308]`, via a single biased unsigned
compare), and the general builder. -/
def fp_double_slow (d : Dec64) : FpResult :=
  if d.mant = 0 then ⟨some (withSign64 d.neg 0), d.rem, 0⟩
  else if 650 < (d.exp10 + 342) % (2 ^ 32) then
    if 308 < d.exp10 then ⟨some (withSign64 d.neg 0x7ff0000000000000), d.rem, 2⟩
    else ⟨some (withSign64 d.neg 0), d.rem, 2⟩
  else
    let b := build_binary64 d.exp10 d.mant
    ⟨some (withSign64 d.neg ((b.exp % (2 ^ 64)).toNat * 2 ^ 52 % 2 ^ 64 ||| b.mant % 2 ^ 52)),
     d.rem, 0⟩

/-- The decimal-number path of `parse_fp_double` (everything after the
special-token recognizer).  `first` is the original cursor (for the
`invalid_argument` return), `p` the cursor after the optional sign. -/
def parse_fp_double_num (first p : List Byte) (neg : Bool) : FpResult :=
  let d := parse_decimal_19_impl p neg
  if d.ec ≠ 0 then ⟨none, first, d.ec⟩
  else
    match fp_double_fast d with
    | some v => ⟨some (if d.neg then f64_neg v else v), d.rem, 0⟩
    | none => fp_double_slow d

/-- The special-token recognizer of `parse_fp_double` (source order: the
3-byte `inf` test comes before the 8-byte `infinity` test); `none` falls
through to the decimal path. -/
def fp_specials64 (neg : Bool) (p : List Byte) : Option FpResult :=
  match p with
  | c :: _ =>
    if asciiLower c == 110 then
      if ieq3 p 110 97 110 then some ⟨some (withSign64 neg 0x7ff8000000000000), p.drop 3, 0⟩
      else none
    else if asciiLower c == 105 then
      if ieq3 p 105 110 102 then some ⟨some (withSign64 neg 0x7ff0000000000000), p.drop 3, 0⟩
      else if ieq8 p [105, 110, 102, 105, 110, 105, 116, 121] then
        some ⟨some (withSign64 neg 0x7ff0000000000000), p.drop 8, 0⟩
      else none
    else none
  | [] => none

/-- Embeds `parse_fp_double`: optional sign, the special tokens `nan` / `inf` /
`infinity`, then the decimal path. -/
def parse_fp_double (first : List Byte) : FpResult :=
  let s := signSplit first
  match fp_specials64 s.1 s.2 with
  | some r => r
  | none => parse_fp_double_num first s.2 s.1

/-- The exact fast-path cluster of `parse_fp_float`: the tiny-exponent
paths (`exp10 ∈ [-2, 0]`, computed in double and narrowed) and the
77-entry power-of-ten path (`exp10 ∈ [-38, 38]`). -/
def fp_float_fast (d : Dec64) : Option Nat :=
  if d.exact then
    if (d.exp10 + 2) % (2 ^ 32) ≤ 2 then
      if d.exp10 == 0 then some (f32_ofNat d.mant)
      else if d.exp10 == -1 then some (f32_ofF64 (f64_div (f64_ofNat d.mant) (f64_ofNat 10)))
      else some (f32_ofF64 (f64_div (f64_ofNat d.mant) (f64_ofNat 100)))
    else if -38 ≤ d.exp10 && d.exp10 ≤ 38 then
      some (f32_ofF64 (f64_mul (f64_ofNat d.mant) (pow10d_i32 d.exp10)))
    else none
  else none

/-- The tail of `parse_fp_float` after the fast paths: zero mantissa, the
`[-64, 38]` range guard, and the general builder. -/
def fp_float_slow (d : Dec64) : FpResult :=
  if d.mant = 0 then ⟨some (withSign32 d.neg 0), d.rem, 0⟩
  else if 102 < (d.exp10 + 64) % (2 ^ 32) then
    if 38 < d.exp10 then ⟨some (withSign32 d.neg 0x7f800000), d.rem, 2⟩
    else ⟨some (withSign32 d.neg 0), d.rem, 2⟩
  else
    let b := build_binary32 d.exp10 d.mant
    ⟨some (withSign32 d.neg ((b.exp % (2 ^ 32)).toNat * 2 ^ 23 % 2 ^ 32 ||| b.mant % 2 ^ 23)),
     d.rem, 0⟩

/-- The decimal-number path of `parse_fp_float`. -/
def parse_fp_float_num (first p : List Byte) (neg : Bool) : FpResult :=
  let d := parse_decimal_10_impl p neg
  if d.ec ≠ 0 then ⟨none, first, d.ec⟩
  else
    match fp_float_fast d with
    | some v => ⟨some (if d.neg then f32_neg v else v), d.rem, 0⟩
    | none => fp_float_slow d

/-- The special-token recognizer of `parse_fp_float` (same order as the
double path: `nan`, 3-byte `inf`, then 8-byte `infinity`). -/
def fp_specials32 (neg : Bool) (p : List Byte) : Option FpResult :=
  match p with
  | c :: _ =>
    if asciiLower c == 110 then
      if ieq3 p 110 97 110 then some ⟨some (withSign32 neg 0x7fc00000), p.drop 3, 0⟩
      else none
    else if asciiLower c == 105 then
      if ieq3 p 105 110 102 then some ⟨some (withSign32 neg 0x7f800000), p.drop 3, 0⟩
      else if ieq8 p [105, 110, 102, 105, 110, 105, 116, 121] then
        some ⟨some (withSign32 neg 0x7f800000), p.drop 8, 0⟩
      else none
    else none
  | [] => none

/-- Embeds `parse_fp_float`: optional sign, specials, then the decimal path. -/
def parse_fp_float (first : List Byte) : FpResult :=
  let s := signSplit first
  match fp_specials32 s.1 s.2 with
  | some r => r
  | none => parse_fp_float_num first s.2 s.1

/-! ### The public `from_chars` surface (chfloat.h) -/

/-- Embeds `chfloat::chars_format`. -/
inductive CharsFormat where
  | general
  | scientific
  | fixed
  | hex
deriving Repr, DecidableEq

/-- Embeds `from_chars` for `double`: unsupported formats are rejected with
`invalid_argument` before the parser runs. -/
def from_chars_double (first : List Byte) (fmt : CharsFormat) : FpResult :=
  if fmt ≠ CharsFormat.general then ⟨none, first, 1⟩
  else parse_fp_double first

/-- Embeds `from_chars` for `float`. -/
def from_chars_float (first : List Byte) (fmt : CharsFormat) : FpResult :=
  if fmt ≠ CharsFormat.general then ⟨none, first, 1⟩
  else parse_fp_float first

/-! ### Integer parsing surface (chfloat.h) -/

/-- Result of one integer parse with target type `α`: `written` is the
value stored through the output reference (`none` when not written). -/
structure IntResult (α : Type) where
  written : Option α
  rem : List Byte
  ec : Nat
deriving Repr, DecidableEq

/-- Embeds `digit_value`: value of a base-2..36 digit byte (`0-9`, `a-z`, `A-Z`);
`none` models the C++ `-1`. -/
def digit_value (c : Byte) : Option Nat :=
  if 48 ≤ c && c ≤ 57 then some (c - 48)
  else if 97 ≤ c && c ≤ 122 then some (10 + (c - 97))
  else if 65 ≤ c && c ≤ 90 then some (10 + (c - 65))
  else none

/-- A byte that is a valid digit in the given base (the `dv < 0 || dv >= base`
test of the source, in positive form). -/
def isBaseDigit (base : Nat) (c : Byte) : Bool :=
  match digit_value c with
  | some d => decide (d < base)
  | none => false

/-- The constant `ULLONG_MAX`. -/
def umax : Nat := 2 ^ 64 - 1

/-- The inner overflow loop of `parse_ull_any_base`: after overflow is
detected, consume the remaining digits of the run (for an accurate end
cursor). -/
def skipBaseDigits (base : Nat) : List Byte → List Byte
  | [] => []
  | c :: rest =>
    match digit_value c with
    | some d => if d < base then skipBaseDigits base rest else c :: rest
    | none => c :: rest

/-- Outcome of the main loop of `parse_ull_any_base`. -/
inductive UllOut where
  | stop (value : Nat) (any : Bool) (rem : List Byte)
  | over (rem : List Byte)
deriving Repr, DecidableEq

/-- The cursor position of either outcome. -/
def UllOut.rem : UllOut → List Byte
  | .stop _ _ r => r
  | .over r => r

/-- The main loop of `parse_ull_any_base` (`2 ≤ base ≤ 36`).  The guard
`value > (umax - d) / base` ensures `value * base + d ≤ umax`, so the
accumulation never wraps and plain `Nat` arithmetic is faithful. -/
def parse_ull_loop (base : Nat) : Nat → Bool → List Byte → UllOut
  | value, any, [] => .stop value any []
  | value, any, c :: rest =>
    match digit_value c with
    | none => .stop value any (c :: rest)
    | some d =>
      if base ≤ d then .stop value any (c :: rest)
      else if (umax - d) / base < value then .over (skipBaseDigits base rest)
      else parse_ull_loop base (value * base + d) true rest

/-- Embeds `detail::parse_ull_any_base`. -/
def parse_ull_any_base (first : List Byte) (base : ℤ) : IntResult Nat :=
  if base < 2 || 36 < base then ⟨none, first, 1⟩
  else if first = [] then ⟨none, first, 1⟩
  else
    match parse_ull_loop base.toNat 0 false first with
    | .over rem => ⟨none, rem, 2⟩
    | .stop v any rem => if !any then ⟨none, first, 1⟩ else ⟨some v, rem, 0⟩

/-- Embeds `from_chars` for `long long`: optional sign, the unsigned parser, then
signed range checks (`-2^63` accepted only when negative). -/
def from_chars_i64 (first : List Byte) (base : ℤ) : IntResult ℤ :=
  if first = [] then ⟨none, first, 1⟩
  else
    let sp := signSplit first
    let r := parse_ull_any_base sp.2 base
    if r.ec = 1 then ⟨none, first, 1⟩
    else if r.ec ≠ 0 then ⟨none, r.rem, r.ec⟩
    else
      let mag := r.written.getD 0
      if !sp.1 then
        if 0x7fffffffffffffff < mag then ⟨none, r.rem, 2⟩
        else ⟨some (mag : ℤ), r.rem, 0⟩
      else
        if 0x8000000000000000 < mag then ⟨none, r.rem, 2⟩
        else ⟨some (if mag = 0x8000000000000000 then -(2 ^ 63 : ℤ) else -(mag : ℤ)), r.rem, 0⟩

/-- Embeds `from_chars` for `unsigned long long`: a leading sign is rejected. -/
def from_chars_u64 (first : List Byte) (base : ℤ) : IntResult Nat :=
  match first with
  | [] => ⟨none, first, 1⟩
  | c :: _ =>
    if c = 45 || c = 43 then ⟨none, first, 1⟩
    else parse_ull_any_base first base

/-- Embeds `from_chars` for `int`: parse as `long long`, then 32-bit range check.
On a non-ok inner result the `int` output is untouched (the source returns
`r` whose write went to a local `long long`). -/
def from_chars_i32 (first : List Byte) (base : ℤ) : IntResult ℤ :=
  let r := from_chars_i64 first base
  if r.ec ≠ 0 then ⟨none, r.rem, r.ec⟩
  else
    let v := r.written.getD 0
    if v < -2147483648 || 2147483647 < v then ⟨none, r.rem, 2⟩
    else ⟨some v, r.rem, 0⟩

/-- Embeds `from_chars` for `unsigned`: parse as `unsigned long long`, then 32-bit
range check. -/
def from_chars_u32 (first : List Byte) (base : ℤ) : IntResult Nat :=
  let r := from_chars_u64 first base
  if r.ec ≠ 0 then ⟨none, r.rem, r.ec⟩
  else
    let v := r.written.getD 0
    if 0xffffffff < v then ⟨none, r.rem, 2⟩
    else ⟨some v, r.rem, 0⟩

/-- No digit at the head of the list (the position right after the
exponent's optional sign). -/
def noLeadDigit : List Byte → Bool
  | [] => true
  | b :: _ => !isDigit b

/-! ## Theorems -/

/-- The scanner reports only `ok` (0) or `invalid_argument` (1). -/
theorem parse_decimal_cap_ec (cap : Nat) (p : List Byte) (neg : Bool) :
    (parse_decimal_cap_impl cap p neg).ec = 0 ∨ (parse_decimal_cap_impl cap p neg).ec = 1 := by
  unfold parse_decimal_cap_impl
  split
  · exact Or.inr rfl
  · dsimp only
    split
    · exact Or.inr rfl
    · exact Or.inl rfl

/-- The slow tail of the double path never reports `invalid_argument`. -/
theorem fp_double_slow_ec (d : Dec64) : (fp_double_slow d).ec ≠ 1 := by
  unfold fp_double_slow
  split
  · simp
  · split
    · split <;> simp
    · simp

/-- The slow tail of the float path never reports `invalid_argument`. -/
theorem fp_float_slow_ec (d : Dec64) : (fp_float_slow d).ec ≠ 1 := by
  unfold fp_float_slow
  split
  · simp
  · split
    · split <;> simp
    · simp

/-- If the double number path reports `invalid_argument`, nothing was
written and nothing was consumed. -/
theorem parse_fp_double_num_invalid (first p : List Byte) (neg : Bool)
    (h : (parse_fp_double_num first p neg).ec = 1) :
    parse_fp_double_num first p neg = ⟨none, first, 1⟩ := by
  simp only [parse_fp_double_num] at h ⊢
  split at h
  · next hne =>
    simp only at h
    simp [hne, h]
  · next hne =>
    split at h
    · simp at h
    · exact absurd h (fp_double_slow_ec _)

/-- If the float number path reports `invalid_argument`, nothing was
written and nothing was consumed. -/
theorem parse_fp_float_num_invalid (first p : List Byte) (neg : Bool)
    (h : (parse_fp_float_num first p neg).ec = 1) :
    parse_fp_float_num first p neg = ⟨none, first, 1⟩ := by
  simp only [parse_fp_float_num] at h ⊢
  split at h
  · next hne =>
    simp only at h
    simp [hne, h]
  · next hne =>
    split at h
    · simp at h
    · exact absurd h (fp_float_slow_ec _)

/-- Every result produced by the double special-token recognizer has
status ok. -/
theorem fp_specials64_ec (neg : Bool) (p : List Byte) (r : FpResult)
    (h : fp_specials64 neg p = some r) : r.ec = 0 := by
  unfold fp_specials64 at h
  split at h
  · split at h
    · split at h
      · cases h; rfl
      · cases h
    · split at h
      · split at h
        · cases h; rfl
        · split at h
          · cases h; rfl
          · cases h
      · cases h
  · cases h

/-- Every result produced by the float special-token recognizer has
status ok. -/
theorem fp_specials32_ec (neg : Bool) (p : List Byte) (r : FpResult)
    (h : fp_specials32 neg p = some r) : r.ec = 0 := by
  unfold fp_specials32 at h
  split at h
  · split at h
    · split at h
      · cases h; rfl
      · cases h
    · split at h
      · split at h
        · cases h; rfl
        · split at h
          · cases h; rfl
          · cases h
      · cases h
  · cases h

/-- Lifting to the full double parser: special tokens always succeed, so
`invalid_argument` can only come from the number path. -/
theorem parse_fp_double_invalid (cs : List Byte)
    (h : (parse_fp_double cs).ec = 1) : parse_fp_double cs = ⟨none, cs, 1⟩ := by
  simp only [parse_fp_double] at h ⊢
  rcases hm : fp_specials64 (signSplit cs).1 (signSplit cs).2 with _ | r <;>
    simp only [hm] at h ⊢
  · exact parse_fp_double_num_invalid _ _ _ h
  · exact absurd (h ▸ fp_specials64_ec _ _ _ hm) one_ne_zero

/-- Lifting to the full float parser. -/
theorem parse_fp_float_invalid (cs : List Byte)
    (h : (parse_fp_float cs).ec = 1) : parse_fp_float cs = ⟨none, cs, 1⟩ := by
  simp only [parse_fp_float] at h ⊢
  rcases hm : fp_specials32 (signSplit cs).1 (signSplit cs).2 with _ | r <;>
    simp only [hm] at h ⊢
  · exact parse_fp_float_num_invalid _ _ _ h
  · exact absurd (h ▸ fp_specials32_ec _ _ _ hm) one_ne_zero

/-- C7.  Whenever the float or double `from_chars` returns
`invalid_argument` — empty range, no digit in the significand, an
unsupported format, sign-only input, a standalone `'.'`, … — the output
value is not written and the end cursor equals `first` (nothing is
consumed). -/
theorem c7_invalid_argument_writes_nothing (cs : List Byte) (fmt : CharsFormat) :
    ((from_chars_double cs fmt).ec = 1 → from_chars_double cs fmt = ⟨none, cs, 1⟩) ∧
    ((from_chars_float cs fmt).ec = 1 → from_chars_float cs fmt = ⟨none, cs, 1⟩) := by
  unfold from_chars_double from_chars_float
  by_cases hf : fmt = CharsFormat.general
  · subst hf
    simp only [ne_eq, not_true_eq_false, if_neg, ite_false, not_false_iff, if_false]
    exact ⟨parse_fp_double_invalid cs, parse_fp_float_invalid cs⟩
  · simp [hf]

/-- C7 witness: the sign-only input `"-"` is rejected with nothing
consumed and nothing written. -/
theorem c7_invalid_argument_writes_nothing_witness :
    (from_chars_double (bytes "-") CharsFormat.general).ec = 1 ∧
    from_chars_double (bytes "-") CharsFormat.general = ⟨none, bytes "-", 1⟩ :=
  ⟨by decide, (c7_invalid_argument_writes_nothing (bytes "-") CharsFormat.general).1 (by decide)⟩

/-- C1.  The correct-rounding claim fails on the code: the decimal string
`"0.0000000000000000005"` has the finite, in-range value `5·10⁻¹⁹`, yet
`from_chars` (double, general format) returns status ok with value `+0.0`
(the 19 leading zero digits exhaust the significant-digit budget, so the
`5` is discarded), while the IEEE-754 correctly rounded (RNE) binary64
value of `5·10⁻¹⁹` is `0x3C22725DD1D243AC ≠ 0`. -/
theorem c1_correct_rounding_fails_on_zero_prefixed_input :
    from_chars_double (bytes "0.0000000000000000005") CharsFormat.general =
      ⟨some 0, [], 0⟩ ∧
    rne64 ⟨5, 10 ^ 19⟩ = 0x3C22725DD1D243AC ∧
    (0 : Nat) ≠ 0x3C22725DD1D243AC := by
  refine ⟨by decide, by decide, by decide⟩

/-- C2.  The code checks the 3-byte token `inf` before the 8-byte token
`infinity`, so on `"-infinity"` the double parser returns `−∞` with the
cursor 3 bytes past the token start: 4 bytes consumed in all (`rem` keeps
the 5 bytes `"inity"`), not the 9 the claim requires. -/
theorem c2_infinity_matches_short_token_first :
    parse_fp_double (bytes "-infinity") =
      ⟨some 0xfff0000000000000, bytes "inity", 0⟩ ∧
    (bytes "inity").length = 5 := by
  refine ⟨by decide, by decide⟩

/-- C3.  Prepending leading zeros can change the parsed value: the zeros
count against the 19-significant-digit cap, so `"00000000000000000001"`
(nineteen `0`s then `1`) parses as `+0.0` while `"1"` parses as `1.0`;
both with status ok. -/
theorem c3_leading_zeros_change_parsed_value :
    from_chars_double (bytes "00000000000000000001") CharsFormat.general =
      ⟨some 0, [], 0⟩ ∧
    from_chars_double (bytes "1") CharsFormat.general =
      ⟨some 0x3ff0000000000000, [], 0⟩ ∧
    (0 : Nat) ≠ 0x3ff0000000000000 := by
  refine ⟨by decide, by decide, by decide⟩

/-- C9.  For every input and every base outside `[2, 36]`, all four integer
`from_chars` overloads return `invalid_argument`, consume nothing
(`rem = first`), and do not write the output. -/
theorem c9_base_outside_2_36_rejected (cs : List Byte) (base : ℤ)
    (h : base < 2 ∨ 36 < base) :
    from_chars_i64 cs base = ⟨none, cs, 1⟩ ∧
    from_chars_u64 cs base = ⟨none, cs, 1⟩ ∧
    from_chars_i32 cs base = ⟨none, cs, 1⟩ ∧
    from_chars_u32 cs base = ⟨none, cs, 1⟩ := by
  have hb : (base < 2 || 36 < base) = true := by
    rcases h with h | h <;> simp [h]
  have hull : ∀ p : List Byte, parse_ull_any_base p base = ⟨none, p, 1⟩ := by
    intro p; simp [parse_ull_any_base, hb]
  have hi64 : from_chars_i64 cs base = ⟨none, cs, 1⟩ := by
    unfold from_chars_i64
    rcases cs with _ | ⟨c, r⟩
    · simp
    · simp only [hull]; split <;> simp_all
  have hu64 : from_chars_u64 cs base = ⟨none, cs, 1⟩ := by
    unfold from_chars_u64
    rcases cs with _ | ⟨c, r⟩
    · rfl
    · simp only [hull]; split <;> simp_all
  refine ⟨hi64, hu64, ?_, ?_⟩
  · unfold from_chars_i32
    simp [hi64]
  · unfold from_chars_u32
    simp [hu64]

/-- C9 witness: base 37 on the input `"123"`. -/
theorem c9_base_outside_2_36_rejected_witness :
    ((37 : ℤ) < 2 ∨ 36 < (37 : ℤ)) ∧
    from_chars_i64 (bytes "123") 37 = ⟨none, bytes "123", 1⟩ := by
  have h : (37 : ℤ) < 2 ∨ 36 < (37 : ℤ) := by decide
  exact ⟨h, (c9_base_outside_2_36_rejected (bytes "123") 37 h).1⟩


/-- C8.  A `nan` token (ASCII case-insensitive, at least 3 bytes after the
optional sign) yields the canonical quiet NaN — `0x7ff8000000000000` for
double, `0x7fc00000` for float — with the sign bit set iff the input sign
was `-` (`signSplit` yields `neg = true` exactly for a leading `-`),
status ok, and the cursor exactly 3 bytes past the token start, leaving
any trailing bytes unconsumed. -/
theorem c8_nan_token_canonical_quiet_nan (first p rest : List Byte) (neg : Bool)
    (c1 c2 c3 : Byte)
    (hsp : signSplit first = (neg, p))
    (hp : p = c1 :: c2 :: c3 :: rest)
    (h1 : asciiLower c1 = 110) (h2 : asciiLower c2 = 97) (h3 : asciiLower c3 = 110) :
    parse_fp_double first = ⟨some (withSign64 neg 0x7ff8000000000000), rest, 0⟩ ∧
    parse_fp_float first = ⟨some (withSign32 neg 0x7fc00000), rest, 0⟩ := by
  subst hp
  have hs64 : fp_specials64 neg (c1 :: c2 :: c3 :: rest) =
      some ⟨some (withSign64 neg 0x7ff8000000000000), rest, 0⟩ := by
    simp [fp_specials64, ieq3, h1, h2, h3]
  have hs32 : fp_specials32 neg (c1 :: c2 :: c3 :: rest) =
      some ⟨some (withSign32 neg 0x7fc00000), rest, 0⟩ := by
    simp [fp_specials32, ieq3, h1, h2, h3]
  constructor
  · simp only [parse_fp_double, hsp, hs64]
  · simp only [parse_fp_float, hsp, hs32]

/-- C8 witness: `"-NaNx"` gives the negative quiet NaN for both targets,
consuming 4 bytes (sign + 3-byte token) and leaving `"x"`. -/
theorem c8_nan_token_canonical_quiet_nan_witness :
    parse_fp_double (bytes "-NaNx") = ⟨some 0xfff8000000000000, bytes "x", 0⟩ ∧
    parse_fp_float (bytes "-NaNx") = ⟨some 0xffc00000, bytes "x", 0⟩ := by
  have h := c8_nan_token_canonical_quiet_nan (bytes "-NaNx") (bytes "NaNx") (bytes "x")
    true 78 97 78 (by decide) (by decide) (by decide) (by decide) (by decide)
  exact ⟨h.1.trans (by decide), h.2.trans (by decide)⟩

theorem int_two_pow_32 : (2 : ℤ) ^ 32 = 4294967296 := by norm_num

/-- When the adjusted exponent is out of range (and bounded, as the i32
`exp10` always is), none of the exact double fast paths applies. -/
theorem fp_double_fast_out_of_range (d : Dec64)
    (hb : d.exp10.natAbs ≤ 2 ^ 31) (h : 308 < d.exp10 ∨ d.exp10 < -342) :
    fp_double_fast d = none := by
  have h1 : ¬(d.mant ≤ 99999999 && d.exp10 == -1) = true := by
    simp only [Bool.and_eq_true, decide_eq_true_eq, beq_iff_eq, not_and]
    intro _ he; omega
  have h2 : ¬(d.mant ≤ 99999999 && d.exp10 == -2) = true := by
    simp only [Bool.and_eq_true, decide_eq_true_eq, beq_iff_eq, not_and]
    intro _ he; omega
  have h3 : ¬(d.exp10 + 15) % (2 ^ 32) ≤ 30 := by rw [int_two_pow_32]; omega
  unfold fp_double_fast
  split <;> rfl

/-- When the adjusted exponent is out of range, none of the exact float
fast paths applies. -/
theorem fp_float_fast_out_of_range (d : Dec64)
    (hb : d.exp10.natAbs ≤ 2 ^ 31) (h : 38 < d.exp10 ∨ d.exp10 < -64) :
    fp_float_fast d = none := by
  have h1 : ¬(d.exp10 + 2) % (2 ^ 32) ≤ 2 := by rw [int_two_pow_32]; omega
  have h2 : ¬(-38 ≤ d.exp10 && d.exp10 ≤ 38) = true := by
    simp only [Bool.and_eq_true, decide_eq_true_eq, not_and]
    intro _ he; omega
  unfold fp_float_fast
  split <;> rfl

/-- C6.  For a successfully scanned decimal with nonzero mantissa whose
adjusted exponent lies beyond the guard window, the parser returns
sign-matched infinity (`exp10 > E_over`: 308 for double, 38 for float) or
sign-matched zero (`exp10 < E_under`: −342 for double, −64 for float)
with status `result_out_of_range`, and the cursor is the scanner's end
cursor, past the fully consumed number.  (`exp10.natAbs ≤ 2^31` records
that the scanner's `i32` exponent is bounded, which the saturating
exponent accumulation guarantees for any input addressable with 32-bit
lengths.) -/
theorem c6_exponent_range_guard (first p : List Byte) (neg : Bool) :
    (∀ d : Dec64, parse_decimal_19_impl p neg = d → d.ec = 0 → d.mant ≠ 0 →
      d.exp10.natAbs ≤ 2 ^ 31 →
      (308 < d.exp10 →
        parse_fp_double_num first p neg =
          ⟨some (withSign64 d.neg 0x7ff0000000000000), d.rem, 2⟩) ∧
      (d.exp10 < -342 →
        parse_fp_double_num first p neg = ⟨some (withSign64 d.neg 0), d.rem, 2⟩)) ∧
    (∀ d : Dec64, parse_decimal_10_impl p neg = d → d.ec = 0 → d.mant ≠ 0 →
      d.exp10.natAbs ≤ 2 ^ 31 →
      (38 < d.exp10 →
        parse_fp_float_num first p neg =
          ⟨some (withSign32 d.neg 0x7f800000), d.rem, 2⟩) ∧
      (d.exp10 < -64 →
        parse_fp_float_num first p neg = ⟨some (withSign32 d.neg 0), d.rem, 2⟩)) := by
  constructor
  · intro d hd h0 hm hb
    constructor <;> intro hrange
    · have hfast := fp_double_fast_out_of_range d hb (Or.inl hrange)
      have hg : 650 < (d.exp10 + 342) % (2 ^ 32) := by rw [int_two_pow_32]; omega
      simp only [parse_fp_double_num, hd, h0, ne_eq, not_true_eq_false, if_false,
        ite_false, hfast, fp_double_slow, if_neg hm, if_pos hg, if_pos hrange]
    · have hfast := fp_double_fast_out_of_range d hb (Or.inr hrange)
      have hg : 650 < (d.exp10 + 342) % (2 ^ 32) := by rw [int_two_pow_32]; omega
      have hgt : ¬308 < d.exp10 := by omega
      simp only [parse_fp_double_num, hd, h0, ne_eq, not_true_eq_false, if_false,
        ite_false, hfast, fp_double_slow, if_neg hm, if_pos hg, if_neg hgt]
  · intro d hd h0 hm hb
    constructor <;> intro hrange
    · have hfast := fp_float_fast_out_of_range d hb (Or.inl hrange)
      have hg : 102 < (d.exp10 + 64) % (2 ^ 32) := by rw [int_two_pow_32]; omega
      simp only [parse_fp_float_num, hd, h0, ne_eq, not_true_eq_false, if_false,
        ite_false, hfast, fp_float_slow, if_neg hm, if_pos hg, if_pos hrange]
    · have hfast := fp_float_fast_out_of_range d hb (Or.inr hrange)
      have hg : 102 < (d.exp10 + 64) % (2 ^ 32) := by rw [int_two_pow_32]; omega
      have hgt : ¬38 < d.exp10 := by omega
      simp only [parse_fp_float_num, hd, h0, ne_eq, not_true_eq_false, if_false,
        ite_false, hfast, fp_float_slow, if_neg hm, if_pos hg, if_neg hgt]

/-- C6 witness: `"1e400"` overflows the double window (`exp10 = 400`),
giving `+∞` with `result_out_of_range` and the whole input consumed. -/
theorem c6_exponent_range_guard_witness :
    parse_fp_double_num (bytes "1e400") (bytes "1e400") false =
      ⟨some 0x7ff0000000000000, [], 2⟩ := by
  have h := ((c6_exponent_range_guard (bytes "1e400") (bytes "1e400") false).1
    (parse_decimal_19_impl (bytes "1e400") false) rfl (by decide) (by decide)
    (by decide)).1 (by decide)
  exact h.trans (by decide)


/-- The overflow digit-skipping loop consumes exactly the maximal run of
base digits. -/
theorem skipBaseDigits_eq_dropWhile (base : Nat) :
    ∀ l : List Byte, skipBaseDigits base l = l.dropWhile (isBaseDigit base) := by
  intro l
  induction l with
  | nil => rfl
  | cons c rest ih =>
    simp only [skipBaseDigits, List.dropWhile, isBaseDigit]
    rcases hd : digit_value c with _ | d
    · rfl
    · by_cases hlt : d < base
      · simpa [hlt] using ih
      · simp [hlt]

/-- The main loop of `parse_ull_any_base` always leaves the cursor past
the maximal run of base digits, whether it stops normally or detects
overflow. -/
theorem parse_ull_loop_rem (base : Nat) :
    ∀ (l : List Byte) (v : Nat) (any : Bool),
      (parse_ull_loop base v any l).rem = l.dropWhile (isBaseDigit base) := by
  intro l
  induction l with
  | nil => intro v any; rfl
  | cons c rest ih =>
    intro v any
    simp only [parse_ull_loop, List.dropWhile, isBaseDigit]
    rcases hd : digit_value c with _ | d
    · rfl
    · by_cases hlt : d < base
      · have hnb : ¬base ≤ d := by omega
        by_cases hov : (umax - d) / base < v
        · simp [hnb, hov, hlt, UllOut.rem, skipBaseDigits_eq_dropWhile]
        · simp [hnb, hov, hlt, ih]
      · have hnb : base ≤ d := by omega
        simp [hnb, hlt, UllOut.rem]

/-- Running `parse_ull_any_base` leaves the cursor past the maximal digit run on
every non-`invalid_argument` outcome. -/
theorem parse_ull_any_base_rem (p : List Byte) (base : ℤ) :
    (parse_ull_any_base p base).ec = 1 ∨
    (parse_ull_any_base p base).rem = p.dropWhile (isBaseDigit base.toNat) := by
  unfold parse_ull_any_base
  split
  · exact Or.inl rfl
  · split
    · exact Or.inl rfl
    · have hr := parse_ull_loop_rem base.toNat p 0 false
      rcases hm : parse_ull_loop base.toNat 0 false p with ⟨v, any, rem⟩ | rem <;>
        rw [hm] at hr <;> simp only [UllOut.rem] at hr
      · dsimp only
        split
        · exact Or.inl rfl
        · exact Or.inr hr
      · exact Or.inr hr

/-- On `result_out_of_range`, `parse_ull_any_base` does not write the
output. -/
theorem parse_ull_any_base_nowrite (p : List Byte) (base : ℤ) :
    (parse_ull_any_base p base).ec = 2 → (parse_ull_any_base p base).written = none := by
  unfold parse_ull_any_base
  split
  · intro h; simp at h
  · split
    · intro h; simp at h
    · rcases hm : parse_ull_loop base.toNat 0 false p with ⟨v, any, rem⟩ | rem <;> dsimp only
      · split
        · intro h; simp at h
        · intro h; simp at h
      · intro _; rfl

/-- Running `from_chars` (i64) leaves the cursor past the maximal digit run after
the optional sign on every non-`invalid_argument` outcome. -/
theorem from_chars_i64_rem (cs : List Byte) (base : ℤ) :
    (from_chars_i64 cs base).ec ≠ 1 →
    (from_chars_i64 cs base).rem = (signSplit cs).2.dropWhile (isBaseDigit base.toNat) := by
  unfold from_chars_i64
  split
  · intro h; exact absurd rfl h
  · dsimp only
    split
    · intro h; exact absurd rfl h
    · next h1 =>
      have hrem := (parse_ull_any_base_rem (signSplit cs).2 base).resolve_left h1
      split
      · intro _; exact hrem
      · split
        · split
          · intro _; exact hrem
          · intro _; exact hrem
        · split
          · intro _; exact hrem
          · intro _; exact hrem

/-- On `result_out_of_range`, `from_chars` (i64) does not write. -/
theorem from_chars_i64_nowrite (cs : List Byte) (base : ℤ) :
    (from_chars_i64 cs base).ec = 2 → (from_chars_i64 cs base).written = none := by
  unfold from_chars_i64
  split
  · intro h; simp at h
  · dsimp only
    split
    · intro h; simp at h
    · split
      · intro _; rfl
      · split
        · split
          · intro _; rfl
          · intro h; simp at h
        · split
          · intro _; rfl
          · intro h; simp at h

/-- C10.  Whenever an integer `from_chars` overload (i64, u64, i32, u32)
returns `result_out_of_range`, the output parameter is left unwritten —
no saturated or sentinel value is stored — while the end cursor points
past the maximal run of base digits (after the optional sign for the
signed overloads), i.e. past all consumed digits. -/
theorem c10_out_of_range_leaves_output_unwritten (cs : List Byte) (base : ℤ) :
    ((from_chars_i64 cs base).ec = 2 →
      (from_chars_i64 cs base).written = none ∧
      (from_chars_i64 cs base).rem = (signSplit cs).2.dropWhile (isBaseDigit base.toNat)) ∧
    ((from_chars_u64 cs base).ec = 2 →
      (from_chars_u64 cs base).written = none ∧
      (from_chars_u64 cs base).rem = cs.dropWhile (isBaseDigit base.toNat)) ∧
    ((from_chars_i32 cs base).ec = 2 →
      (from_chars_i32 cs base).written = none ∧
      (from_chars_i32 cs base).rem = (signSplit cs).2.dropWhile (isBaseDigit base.toNat)) ∧
    ((from_chars_u32 cs base).ec = 2 →
      (from_chars_u32 cs base).written = none ∧
      (from_chars_u32 cs base).rem = cs.dropWhile (isBaseDigit base.toNat)) := by
  have hu64 : (from_chars_u64 cs base).ec = 2 →
      (from_chars_u64 cs base).written = none ∧
      (from_chars_u64 cs base).rem = cs.dropWhile (isBaseDigit base.toNat) := by
    intro h
    unfold from_chars_u64 at h ⊢
    rcases cs with _ | ⟨c, r⟩
    · simp at h
    · dsimp only at h ⊢
      split at h
      · simp at h
      · next hsign =>
        rw [if_neg hsign]
        exact ⟨parse_ull_any_base_nowrite _ _ h,
               (parse_ull_any_base_rem _ _).resolve_left (by simp [h])⟩
  refine ⟨?_, hu64, ?_, ?_⟩
  · intro h
    exact ⟨from_chars_i64_nowrite cs base h, from_chars_i64_rem cs base (by simp [h])⟩
  · intro h
    by_cases h0 : (from_chars_i64 cs base).ec ≠ 0
    · have he : from_chars_i32 cs base =
          ⟨none, (from_chars_i64 cs base).rem, (from_chars_i64 cs base).ec⟩ := by
        simp [from_chars_i32, h0]
      rw [he] at h ⊢
      exact ⟨rfl, from_chars_i64_rem cs base (by simp only at h; omega)⟩
    · push_neg at h0
      by_cases hrb : ((from_chars_i64 cs base).written.getD 0 < -2147483648 ||
          2147483647 < (from_chars_i64 cs base).written.getD 0) = true
      · have he : from_chars_i32 cs base = ⟨none, (from_chars_i64 cs base).rem, 2⟩ := by
          simp only [from_chars_i32, h0]
          simp [hrb]
        rw [he]
        exact ⟨rfl, from_chars_i64_rem cs base (by simp [h0])⟩
      · have he : from_chars_i32 cs base =
            ⟨some ((from_chars_i64 cs base).written.getD 0), (from_chars_i64 cs base).rem, 0⟩ := by
          simp only [from_chars_i32, h0]
          simp [hrb]
        rw [he] at h
        simp at h
  · intro h
    by_cases h0 : (from_chars_u64 cs base).ec ≠ 0
    · have he : from_chars_u32 cs base =
          ⟨none, (from_chars_u64 cs base).rem, (from_chars_u64 cs base).ec⟩ := by
        simp [from_chars_u32, h0]
      rw [he] at h ⊢
      have := hu64 (by simp only at h; simpa using h)
      exact ⟨rfl, this.2⟩
    · push_neg at h0
      by_cases hrb : (0xffffffff < (from_chars_u64 cs base).written.getD 0)
      · have he : from_chars_u32 cs base = ⟨none, (from_chars_u64 cs base).rem, 2⟩ := by
          simp only [from_chars_u32, h0]
          simp [hrb]
        rw [he]
        refine ⟨rfl, ?_⟩
        -- u64 succeeded (ec = 0): its cursor is already past the digit run
        unfold from_chars_u64 at h0 ⊢
        rcases cs with _ | ⟨c, r⟩
        · simp at h0
        · dsimp only at h0 ⊢
          split at h0
          · simp at h0
          · next hsign =>
            rw [if_neg hsign]
            exact (parse_ull_any_base_rem _ _).resolve_left (by omega)
      · have he : from_chars_u32 cs base =
            ⟨some ((from_chars_u64 cs base).written.getD 0), (from_chars_u64 cs base).rem, 0⟩ := by
          simp only [from_chars_u32, h0]
          simp [hrb]
        rw [he] at h
        simp at h

/-- C10 witness: `"2147483648"` parsed as i32 overflows; the output stays
unwritten and the whole 10-digit run is consumed. -/
theorem c10_out_of_range_leaves_output_unwritten_witness :
    (from_chars_i32 (bytes "2147483648") 10).ec = 2 ∧
    (from_chars_i32 (bytes "2147483648") 10).written = none ∧
    (from_chars_i32 (bytes "2147483648") 10).rem = [] := by
  have h := (c10_out_of_range_leaves_output_unwritten (bytes "2147483648") 10).2.2.1 (by decide)
  exact ⟨by decide, h.1, h.2.trans (by decide)⟩

/-- Assembly of the scanner: when at least one significand digit was
found, the result is the exponent-adjusted state passed through the cap
rounding, with the cursor where the exponent section stopped. -/
theorem parse_decimal_cap_assemble (cap : Nat) (p cs1 rem : List Byte)
    (neg : Bool) (st1 st : ScanSt)
    (hne : p ≠ [])
    (hsig : sigScan cap ScanSt.init p = (st1, cs1))
    (hany : st1.anyDig = true)
    (hexp : expScan st1 cs1 = (st, rem)) :
    parse_decimal_cap_impl cap p neg =
      ⟨(roundSt cap st).mant, (roundSt cap st).exp10, neg,
       !(roundSt cap st).dropped, rem, 0⟩ := by
  unfold parse_decimal_cap_impl
  rw [if_neg hne]
  simp only [hsig, hany, hexp, Bool.not_true, Bool.false_eq_true, if_false]

/-- C4.  Whenever the scanner dropped digits past the cap, the final
mantissa is the capped mantissa rounded half-to-even on the truncated
tail: it is incremented iff the first dropped digit exceeds 5, or equals
5 and some later dropped digit was nonzero or the capped mantissa is odd;
and when the increment reaches `10^cap` the mantissa becomes
`10^(cap-1)` with `exp10` incremented (cap = 19 for the double scanner,
10 for the float scanner). -/
theorem c4_cap_truncation_rounds_half_to_even (cap : Nat) (p cs1 rem : List Byte)
    (neg : Bool) (st1 st : ScanSt)
    (hne : p ≠ [])
    (hsig : sigScan cap ScanSt.init p = (st1, cs1))
    (hany : st1.anyDig = true)
    (hexp : expScan st1 cs1 = (st, rem))
    (hdrop : st.dropped = true) :
    (¬(5 < st.droppedFirst ∨ (st.droppedFirst = 5 ∧ (st.droppedTail = true ∨ st.mant % 2 = 1))) →
      (parse_decimal_cap_impl cap p neg).mant = st.mant ∧
      (parse_decimal_cap_impl cap p neg).exp10 = st.exp10) ∧
    ((5 < st.droppedFirst ∨ (st.droppedFirst = 5 ∧ (st.droppedTail = true ∨ st.mant % 2 = 1))) →
      (st.mant + 1 ≠ 10 ^ cap →
        (parse_decimal_cap_impl cap p neg).mant = st.mant + 1 ∧
        (parse_decimal_cap_impl cap p neg).exp10 = st.exp10) ∧
      (st.mant + 1 = 10 ^ cap →
        (parse_decimal_cap_impl cap p neg).mant = 10 ^ (cap - 1) ∧
        (parse_decimal_cap_impl cap p neg).exp10 = st.exp10 + 1)) := by
  rw [parse_decimal_cap_assemble cap p cs1 rem neg st1 st hne hsig hany hexp]
  have hcond : ((st.droppedFirst > 5 ||
      (st.droppedFirst == 5 && (st.droppedTail || st.mant % 2 == 1))) = true) ↔
      (5 < st.droppedFirst ∨ (st.droppedFirst = 5 ∧ (st.droppedTail = true ∨ st.mant % 2 = 1))) := by
    simp [Bool.or_eq_true, Bool.and_eq_true, decide_eq_true_eq, beq_iff_eq]
  constructor
  · intro hP
    unfold roundSt
    rw [if_pos hdrop, if_neg (fun hb => hP (hcond.mp hb))]
    exact ⟨rfl, rfl⟩
  · intro hP
    unfold roundSt
    rw [if_pos hdrop, if_pos (hcond.mpr hP)]
    constructor
    · intro hne10
      rw [if_neg hne10]
      exact ⟨rfl, rfl⟩
    · intro he10
      rw [if_pos he10]
      exact ⟨rfl, rfl⟩

/-- C4 witness: twenty `9`s then `5`: the capped mantissa `10^19 − 1`
(odd) with first dropped digit 5 rounds up and renormalises to `10^18`
with `exp10` bumped from 1 to 2. -/
theorem c4_cap_truncation_rounds_half_to_even_witness :
    (parse_decimal_cap_impl 19 (bytes "99999999999999999995") false).mant = 10 ^ 18 ∧
    (parse_decimal_cap_impl 19 (bytes "99999999999999999995") false).exp10 = 2 := by
  have h := (c4_cap_truncation_rounds_half_to_even 19 (bytes "99999999999999999995")
    [] [] false ⟨9999999999999999999, 1, true, 19, true, 5, false⟩
    ⟨9999999999999999999, 1, true, 19, true, 5, false⟩
    (by decide) (by decide) (by decide) (by decide) (by decide)).2
    (Or.inr ⟨rfl, Or.inr (by decide)⟩)
  exact h.2 (by decide)

/-- Under the claim's rewind condition — after the `e`/`E` and an optional
sign there is no digit — the exponent section consumes nothing: state
unchanged, cursor back on the `e`/`E`. -/
theorem expScan_rewind (st : ScanSt) (b : Byte) (rest : List Byte)
    (hb : b = 101 ∨ b = 69) (hrw : noLeadDigit (expSignSplit rest).2 = true) :
    expScan st (b :: rest) = (st, b :: rest) := by
  have hbt : (b = 101 || b = 69) = true := by
    rcases hb with h | h <;> simp [h]
  simp only [expScan]
  rw [if_pos hbt]
  rcases hsr : (expSignSplit rest).2 with _ | ⟨b0, r0⟩
  · rfl
  · rw [hsr] at hrw
    simp only [noLeadDigit, Bool.not_eq_true'] at hrw
    simp [hrw]

/-- C5.  When the byte after the significand is `e`/`E` but no exponent
digit follows (even after an optional `+`/`-`), the exponent section is
not consumed at all: the scanner's result is that of the significand
alone (its state passed through cap rounding) and the end cursor points
at the `e`/`E`. -/
theorem c5_exponent_section_rewind (cap : Nat) (p rest : List Byte)
    (neg : Bool) (st1 : ScanSt) (b : Byte)
    (hne : p ≠ [])
    (hsig : sigScan cap ScanSt.init p = (st1, b :: rest))
    (hany : st1.anyDig = true)
    (hb : b = 101 ∨ b = 69)
    (hrw : noLeadDigit (expSignSplit rest).2 = true) :
    parse_decimal_cap_impl cap p neg =
      ⟨(roundSt cap st1).mant, (roundSt cap st1).exp10, neg,
       !(roundSt cap st1).dropped, b :: rest, 0⟩ :=
  parse_decimal_cap_assemble cap p (b :: rest) (b :: rest) neg st1 st1 hne hsig hany
    (expScan_rewind st1 b rest hb hrw)

/-- C5 witness: `"1e+x"` — the `e`, its sign and the `x` are not consumed:
the result is that of `"1"` with the cursor on the `e` (1 byte consumed,
`"e+x"` left). -/
theorem c5_exponent_section_rewind_witness :
    parse_decimal_cap_impl 19 (bytes "1e+x") false =
      ⟨1, 0, false, true, bytes "e+x", 0⟩ := by
  have h := c5_exponent_section_rewind 19 (bytes "1e+x") (bytes "+x") false
    ⟨1, 0, true, 1, false, 0, false⟩ 101
    (by decide) (by decide) (by decide) (Or.inl rfl) (by decide)
  exact h.trans (by decide)

end Chfloat